import Mathlib

/-!
# Verification of the cluster-health-scanner health runner

Shallow embedding, in Lean 4, of the verdict-merge, verdict-classification,
topology-model, second-pass-gating, pair-planning, job-watching, performance
skip-rule and NCCL result-aggregation logic of the
GoogleCloudPlatform/cluster-health-scanner repository, together with proofs
about that embedding.

Python machine integers are modelled as `Int`/`Nat`, Python `set`s of node
names as `Finset String`, Python `dict`s as insertion-ordered association
lists, and Python `float` failure-rate arithmetic as exact `ℚ` arithmetic.
Fallible operations (division by a length, dictionary key lookup) return
`Option`.
-/

namespace ClusterHealthScanner

/-! ## Verdict merge (`determine_failed_components`, health_runner/nccl_runner.py) -/

/-- Embedding of `nccl_runner.determine_failed_components`.
The Python function works on `set`s of id strings; the four loops are
embedded as folds over the corresponding lists (the third Python loop
iterates over `set(first_pass_failed)`, which visits the same ids as
iterating over the list `first_pass_failed` itself, since inserting a
member is a no-op).  The returned pair models `(list(passed_set),
list(failed_set))` up to the (irrelevant) order of `list(...)`. -/
def determine_failed_components (first_pass_passed first_pass_failed
    second_pass_passed second_pass_failed : List String) :
    Finset String × Finset String :=
  let passed_set := first_pass_passed.toFinset
  let failed_set := second_pass_failed.toFinset
  -- Add any node that passed the second pass to the passed set.
  let passed_set := second_pass_passed.foldl
    (fun s node => if node ∉ s then insert node s else s) passed_set
  -- Remove any node that passed the first pass but failed the second pass.
  -- Nodes can not move from passed to failed.
  let first_pass_failed_set := first_pass_failed.toFinset
  let failed_set := second_pass_failed.foldl
    (fun s node =>
      if node ∉ first_pass_failed_set ∧ node ∈ s then s.erase node else s)
    failed_set
  -- Add any node that failed the first pass and is not in the passed set.
  let failed_set := first_pass_failed.foldl
    (fun s node => if node ∉ passed_set then insert node s else s) failed_set
  (passed_set, failed_set)

/-! ## Kubernetes node model -/

/-- The slice of a Kubernetes `V1Node` object that the health runner reads:
the node name (`metadata.name`), the label dictionary (`metadata.labels`,
embedded as an association list), and the parsed
`status.allocatable["nvidia.com/gpu"]` value (`none` when the node has no
status, the key is absent, or the value does not parse as an integer). -/
structure KNode where
  name : String
  labels : List (String × String)
  gpuAllocatable : Option Int
deriving DecidableEq, Repr

/-- The label key `aiinfra/nccl-healthcheck-pre-result` (nccl_runner.py). -/
def NCCL_PRE_RESULT_KEY : String := "aiinfra/nccl-healthcheck-pre-result"

/-! ## Verdict classification (`get_nccl_test_results`, nccl_runner.py) -/

/-- The four NCCL verdicts, i.e. the keys under which
`get_nccl_test_results` files a node. -/
inductive Verdict
  | pass
  | fail
  | crash
  | timeout
deriving DecidableEq, Repr

/-- The verdict of `get_nccl_test_results`'s `match pre_result` statement,
in the source's case order: `"pass"`, `None` (absent label), `"crash"`,
and a catch-all mapping any other value to `fail`. -/
def classifyPreResult : Option String → Verdict
  | some "pass" => Verdict.pass
  | none => Verdict.timeout
  | some "crash" => Verdict.crash
  | some _ => Verdict.fail

/-- The `node_results` dictionary of `get_nccl_test_results`:
a `defaultdict(list)` whose only possible keys are the four verdicts,
embedded as the four lists. -/
structure NodeResults where
  pass : List String
  fail : List String
  crash : List String
  timeout : List String
deriving DecidableEq, Repr

/-- The empty `defaultdict(list)`. -/
def emptyNodeResults : NodeResults := ⟨[], [], [], []⟩

/-- Appending a node name to the bucket of its verdict key. -/
def addResult (r : NodeResults) (v : Verdict) (node_name : String) :
    NodeResults :=
  match v with
  | Verdict.pass => { r with pass := r.pass ++ [node_name] }
  | Verdict.fail => { r with fail := r.fail ++ [node_name] }
  | Verdict.crash => { r with crash := r.crash ++ [node_name] }
  | Verdict.timeout => { r with timeout := r.timeout ++ [node_name] }

/-- Reading the bucket stored under a verdict key. -/
def bucket (r : NodeResults) : Verdict → List String
  | Verdict.pass => r.pass
  | Verdict.fail => r.fail
  | Verdict.crash => r.crash
  | Verdict.timeout => r.timeout

/-- Embedding of `nccl_runner.get_nccl_test_results`.  `clusterNodes` is
the list returned by `v1.list_node()`; `nodes` is the list of tested node
names (the Python `set(nodes)` membership test is embedded as list
membership).  Each cluster node that was tested is appended to the bucket
selected by pattern-matching its pre-result label. -/
def get_nccl_test_results (clusterNodes : List KNode) (nodes : List String) :
    NodeResults :=
  clusterNodes.foldl
    (fun node_results node =>
      if node.name ∉ nodes then node_results
      else
        addResult node_results
          (classifyPreResult (node.labels.lookup NCCL_PRE_RESULT_KEY))
          node.name)
    emptyNodeResults

/-! ## Second-pass gating (`run_nccl_random_pair_healthcheck`, nccl_runner.py) -/

/-- `passed_nodes = node_results.get("pass", list())`. -/
def passed_nodes (r : NodeResults) : List String := r.pass

/-- The `suspect_nodes` list of `run_nccl_random_pair_healthcheck`: every
`(node, result_type)` entry of `node_results` whose key is not `"pass"`.
The Python loop follows the dictionary's insertion order; the embedding
uses the fixed bucket order fail, crash, timeout, which lists the same
tagged entries. -/
def first_pass_suspects (r : NodeResults) : List (String × String) :=
  r.fail.map (fun node => (node, "fail")) ++
    r.crash.map (fun node => (node, "crash")) ++
    r.timeout.map (fun node => (node, "timeout"))

/-- The second-pass gate of `run_nccl_random_pair_healthcheck`: the code
returns early (no second pass) when
`(not second_pass_enabled) or (not suspect_nodes) or (not passed_nodes)`,
so a second pass launches exactly when this Boolean is `true`. -/
def second_pass_launched (second_pass_enabled : Bool) (r : NodeResults) :
    Bool :=
  !(!second_pass_enabled || (first_pass_suspects r).isEmpty ||
      (passed_nodes r).isEmpty)

/-! ## Topology model (`get_nodes_data` and friends, nccl_runner.py) -/

/-- Embedding of `nccl_runner.has_gpu_resources`: true iff the node's
allocatable `nvidia.com/gpu` count parsed to an integer `> 0` (the `none`
case covers a missing status, a missing key, and an unparsable value, all
of which make the Python function return `False`). -/
def has_gpu_resources (node : KNode) : Bool :=
  match node.gpuAllocatable with
  | some gpu_count => decide (0 < gpu_count)
  | none => false

/-- The filter of `get_nodes_data`'s first loop: a node is kept iff it has
GPU resources and, when the filter label name (env `FILTER_LABEL_NAME`) is
non-empty, it carries that label with exactly the filter value. -/
def keep_node (filter_label_name filter_label_value : String)
    (node : KNode) : Bool :=
  if !(has_gpu_resources node) then false
  else if filter_label_name ≠ "" ∧
      node.labels.lookup filter_label_name ≠ some filter_label_value then
    false
  else true

/-- The per-node dictionary `{"cluster", "rack", "host", "node_id"}` built
by `get_node_data_v1` / `get_node_data_v2`. -/
structure NodeData where
  cluster : String
  rack : String
  host : String
  node_id : String
deriving DecidableEq, Repr

/-- The record `get_node_data_v1` builds for one node: each
`labels.get(key, "unknown")` is embedded as `lookup` + `getD "unknown"`. -/
def node_data_v1 (gpu_node : KNode) : NodeData :=
  { cluster := (gpu_node.labels.lookup "topology.gke.io/cluster").getD "unknown"
    rack := (gpu_node.labels.lookup "topology.gke.io/rack").getD "unknown"
    host := (gpu_node.labels.lookup "topology.gke.io/host").getD "unknown"
    node_id := gpu_node.name }

/-- Embedding of `nccl_runner.get_node_data_v1`: nodes whose labels do not
contain `topology.gke.io/cluster` are skipped (`continue`); the rest are
mapped to their records. -/
def get_node_data_v1 (gpu_nodes : List KNode) : List NodeData :=
  (gpu_nodes.filter
      (fun gpu_node =>
        (gpu_node.labels.lookup "topology.gke.io/cluster").isSome)).map
    node_data_v1

/-- The record `get_node_data_v2` builds for one node. -/
def node_data_v2 (gpu_node : KNode) : NodeData :=
  { cluster :=
      (gpu_node.labels.lookup "cloud.google.com/gce-topology-block").getD
        "unknown"
    rack :=
      (gpu_node.labels.lookup "cloud.google.com/gce-topology-subblock").getD
        "unknown"
    host :=
      (gpu_node.labels.lookup "cloud.google.com/gce-topology-host").getD
        "unknown"
    node_id := gpu_node.name }

/-- Embedding of `nccl_runner.get_node_data_v2`: every node is mapped. -/
def get_node_data_v2 (gpu_nodes : List KNode) : List NodeData :=
  gpu_nodes.map node_data_v2

/-- Embedding of `nccl_runner.get_nodes_data`.  The GPU/filter-label loop
becomes `List.filter keep_node`; an empty survivor list yields `[]`;
otherwise the first survivor's labels pick the schema: v1 when it carries
`topology.gke.io/cluster`, else v2 when it carries
`cloud.google.com/gce-topology-host`, else v2 again (the no-topology
fallback). -/
def get_nodes_data (filter_label_name filter_label_value : String)
    (kube_nodes : List KNode) : List NodeData :=
  let gpu_nodes :=
    kube_nodes.filter (keep_node filter_label_name filter_label_value)
  match gpu_nodes with
  | [] => []
  | first :: _ =>
    if (first.labels.lookup "topology.gke.io/cluster").isSome then
      get_node_data_v1 gpu_nodes
    else if (first.labels.lookup "cloud.google.com/gce-topology-host").isSome
        then
      get_node_data_v2 gpu_nodes
    else
      get_node_data_v2 gpu_nodes

/-! ## Pair planner (`generate_index_pairs`, nccl_runner.py) -/

/-- The `while len(indices) > 1` loop of `generate_index_pairs`, applied to
the reversed index list (`list.pop()` removes from the back, so popping
pairs off `indices` is consuming `indices.reverse` front to front).
Returns the pairs in append order together with the leftover index when
the list length is odd. -/
def pairUp : List Nat → List (Nat × Nat) × Option Nat
  | [] => ([], none)
  | [x] => ([], some x)
  | x :: y :: rest => ((x, y) :: (pairUp rest).1, (pairUp rest).2)

/-- Embedding of `nccl_runner.generate_index_pairs`.  The calls to
`random.shuffle` and `random.randint` are parameters: `shuffled` is the
shuffled value of `list(range(length))`, and `random_partner` is the value
on which the `while random_partner == last_index` retry loop settled (so
a caller instantiates it with any in-range value different from the
leftover index). -/
def generate_index_pairs (length : Nat) (shuffled : List Nat)
    (random_partner : Nat) : List (Nat × Nat) :=
  if length < 2 then []
  else
    let pairs := (pairUp shuffled.reverse).1
    -- If there's an odd number of indices, pair the last one randomly
    match (pairUp shuffled.reverse).2 with
    | none => pairs
    | some last_index => pairs ++ [(last_index, random_partner)]

/-! ## Second-pass pairing (`run_nccl_random_pair_healthcheck`, nccl_runner.py) -/

/-- The first `n` elements of `itertools.cycle l`: element `i` is
`l[i % len(l)]` (the default is never read when `l` is non-empty). -/
def cycle_take (l : List String) (n : Nat) : List String :=
  (List.range n).map (fun i => l.getD (i % l.length) "")

/-- The `second_pass_node_pairs` list of `run_nccl_random_pair_healthcheck`:
`zip(suspect_nodes_list, itertools.cycle(passed_nodes_list))`, which pairs
each suspect with the passer at its index modulo the passer count
(`zip` stops at the shorter, i.e. the suspect, list). -/
def second_pass_node_pairs (suspect_nodes_list passed_nodes_list :
    List String) : List (String × String) :=
  suspect_nodes_list.zip (cycle_take passed_nodes_list
    suspect_nodes_list.length)

/-! ## Job watcher (`wait_till_jobs_complete`, checker_common.py) -/

/-- The three exception classes caught by the polling loop of
`wait_till_jobs_complete`. -/
inductive ApiErrorKind
  | connectTimeoutError
  | maxRetryError
  | apiException
deriving DecidableEq, Repr

/-- The slice of a Kubernetes job object the watcher reads:
`metadata.name`, `status.succeeded` and `status.failed` (both `None`-able
counters). -/
structure JobStatus where
  name : String
  succeeded : Option Nat
  failed : Option Nat
deriving DecidableEq, Repr

/-- One tick of the polling loop: `list_namespaced_job` either raises one
of the three caught exceptions or returns a job list. -/
inductive PollOutcome
  | error (e : ApiErrorKind)
  | jobs (items : List JobStatus)
deriving DecidableEq, Repr

/-- `job.status.succeeded is not None and job.status.succeeded >= 1`. -/
def jobSucceeded (job : JobStatus) : Bool :=
  match job.succeeded with
  | some k => decide (1 ≤ k)
  | none => false

/-- `job.status.failed is not None and job.status.failed >= 1`. -/
def jobFailed (job : JobStatus) : Bool :=
  match job.failed with
  | some k => decide (1 ≤ k)
  | none => false

/-- One iteration of the `while remaining_jobs` loop body of
`wait_till_jobs_complete`: on an exception the `job_list` stays `[]` and
nothing changes; on a successful poll every monitored job observed with
`succeeded >= 1` or (elif) `failed >= 1` is removed from the remaining
set. -/
def processPoll (remaining_jobs : Finset String) (poll : PollOutcome) :
    Finset String :=
  match poll with
  | PollOutcome.error _ => remaining_jobs
  | PollOutcome.jobs items =>
    items.foldl
      (fun remaining job =>
        if job.name ∈ remaining then
          if jobSucceeded job then remaining.erase job.name
          else if jobFailed job then remaining.erase job.name
          else remaining
        else remaining)
      remaining_jobs

/-- Embedding of `checker_common.wait_till_jobs_complete`.  `polls` is the
finite sequence of poll outcomes observed before the deadline fired (time
is abstracted into the length of this sequence); the loop's early exit on
an empty remaining set is immaterial because every later tick leaves an
empty set empty.  The result models `list(remaining_jobs)`. -/
def wait_till_jobs_complete (jobs_to_monitor : List String)
    (polls : List PollOutcome) : Finset String :=
  polls.foldl processPoll jobs_to_monitor.toFinset

/-- Whether a poll outcome reports job `x` as terminal. -/
def observedTerminal (x : String) (poll : PollOutcome) : Bool :=
  match poll with
  | PollOutcome.error _ => false
  | PollOutcome.jobs items =>
    items.any (fun job => job.name == x && (jobSucceeded job || jobFailed job))

/-! ## Performance runner (`run_performance_healthcheck`, performance_runner.py) -/

/-- Modelled from the spec: the `Status` enum of the `health_results`
protobuf (referenced as `health_results_pb2.Status` by the code; the
`.proto` definition is not part of the sources).  The spec's report
statuses are `PASS`, `FAIL` and `SKIP`; `unspecified` stands for the
proto3 default a `HealthResultList` carries when constructed without an
explicit status. -/
inductive Status
  | unspecified
  | pass
  | fail
  | skip
deriving DecidableEq, Repr

/-- The fields of a `health_results_pb2.HealthResultList` entry that
`run_performance_healthcheck` sets when it records a topology level. -/
structure HealthResultList where
  id : String
  num_nodes : Nat
  status : Status
deriving DecidableEq, Repr

/-- The filter loop of `run_performance_healthcheck`: walking
`topology_to_nodes` in order, a level with `len(nodes) <= 1` is recorded
as a `SKIP` result and not added to the testable dictionary; any other
level is added to the testable dictionary and recorded with the default
(unset) status.  Both dictionaries are embedded as insertion-ordered
association lists. -/
def splitTestable (topology_to_nodes : List (String × List String)) :
    List (String × List String) × List (String × HealthResultList) :=
  topology_to_nodes.foldl
    (fun acc entry =>
      if entry.2.length ≤ 1 then
        (acc.1,
          acc.2 ++
            [(entry.1,
              { id := entry.1, num_nodes := entry.2.length,
                status := Status.skip })])
      else
        (acc.1 ++ [entry],
          acc.2 ++
            [(entry.1,
              { id := entry.1, num_nodes := entry.2.length,
                status := Status.unspecified })]))
    ([], [])

/-- The launch loops of `run_performance_healthchecks`: for each element
of the generated test sweep (`health_check_tests`) and each testable
topology, exactly one `run_healthcheck` invocation is issued.  A launch is
identified by its (sweep element, topology) pair; the sweep element type
is abstract. -/
def launched_jobs {α : Type} (health_check_tests : List α)
    (topology_to_testable_nodes : List (String × List String)) :
    List (α × String) :=
  health_check_tests.flatMap
    (fun test => topology_to_testable_nodes.map (fun entry => (test, entry.1)))

/-! ## NCCL result aggregation (nccl_healthcheck/nccl_startup.py) -/

/-- One parsed NCCL result line (`nccl_startup.NcclResult`). -/
structure NcclResult where
  message_size : String
  in_place_bw : Int
  in_place_time : Int
deriving DecidableEq, Repr

/-- One test iteration's parsed output (`nccl_startup.NcclResults`):
`success` is true iff the workload printed a parseable
`# Avg bus bandwidth` line. -/
structure NcclResults where
  avg_bandwidth : Int
  results : List NcclResult
  success : Bool
deriving DecidableEq, Repr

/-- `_NCCL_AVG_BANDWIDTH_KEY` (nccl_startup.py). -/
def NCCL_AVG_BANDWIDTH_KEY : String := "aiinfra/nccl-healthcheck-bandwidth"

/-- `_NO_BANDWIDTH_VALUE` (nccl_startup.py). -/
def NO_BANDWIDTH_VALUE : Int := -1

/-- `MESSAGE_SIZE_TO_BANDWIDTH_LABEL` (nccl_startup.py). -/
def MESSAGE_SIZE_TO_BANDWIDTH_LABEL : List (String × String) :=
  [("4194304", "aiinfra/nccl-healthcheck-4MiB-bandwidth"),
    ("67108864", "aiinfra/nccl-healthcheck-64MiB-bandwidth"),
    ("1073741824", "aiinfra/nccl-healthcheck-1G-bandwidth"),
    ("8589934592", "aiinfra/nccl-healthcheck-8G-bandwidth")]

/-- `MESSAGE_SIZE_TO_LATENCY_LABEL` (nccl_startup.py). -/
def MESSAGE_SIZE_TO_LATENCY_LABEL : List (String × String) :=
  [("4194304", "aiinfra/nccl-healthcheck-4MiB-latency-ms"),
    ("67108864", "aiinfra/nccl-healthcheck-64MiB-latency-ms"),
    ("1073741824", "aiinfra/nccl-healthcheck-1G-latency-ms"),
    ("8589934592", "aiinfra/nccl-healthcheck-8G-latency-ms")]

/-- Embedding of `nccl_startup.update_metrics`.  The `metrics` dictionary
maps a label to a `(count, total)` pair and is a `defaultdict` with
default `(0, 0)`: reading an absent label and writing back `(1, value)`
appends a fresh entry; an existing entry is updated in place (so it keeps
its position). -/
def update_metrics (metrics : List (String × Nat × Int)) (label : String)
    (value : Int) : List (String × Nat × Int) :=
  match metrics.lookup label with
  | some (count, total) =>
    metrics.map
      (fun entry =>
        if entry.1 = label then (label, count + 1, total + value) else entry)
  | none => metrics ++ [(label, 1, value)]

/-- The `metrics` dictionary built by the main loop of
`nccl_startup.compute_metrics`: unsuccessful iterations are skipped; each
successful iteration updates the average-bandwidth entry, then one
bandwidth and one latency entry per result line whose message size is a
key of the corresponding label map. -/
def compute_metrics_raw (test_results : List NcclResults) :
    List (String × Nat × Int) :=
  test_results.foldl
    (fun metrics nccl_results =>
      if !nccl_results.success then metrics
      else
        let metrics :=
          update_metrics metrics NCCL_AVG_BANDWIDTH_KEY
            nccl_results.avg_bandwidth
        nccl_results.results.foldl
          (fun metrics result =>
            let metrics :=
              match MESSAGE_SIZE_TO_BANDWIDTH_LABEL.lookup
                  result.message_size with
              | some bandwidth_label =>
                update_metrics metrics bandwidth_label result.in_place_bw
              | none => metrics
            match MESSAGE_SIZE_TO_LATENCY_LABEL.lookup result.message_size with
            | some latency_label =>
              update_metrics metrics latency_label result.in_place_time
            | none => metrics)
          metrics)
    []

/-- Embedding of `nccl_startup.compute_metrics`: each metric is averaged
as `int(total / count)`, i.e. division truncated toward zero
(`Int.tdiv`). -/
def compute_metrics (test_results : List NcclResults) :
    List (String × Int) :=
  (compute_metrics_raw test_results).map
    (fun entry => (entry.1, Int.tdiv entry.2.2 (entry.2.1 : Int)))

/-- Embedding of the decision core of `nccl_startup.process_test_result`
(the labelling side effects are dropped; the function returns the
`(avg_bandwidth, passed)` pair those side effects consume).
`none` models the two possible Python exceptions: `ZeroDivisionError` on
the failure-rate division when `test_results` is empty, and `KeyError`
when `averaged_metrics` lacks the average-bandwidth key.  The float
failure rate is embedded as the exact rational
`failed_tests / len(test_results)`. -/
def process_test_result (test_results : List NcclResults)
    (bandwidth_threshold : Int) (acceptable_failure_rate : ℚ) :
    Option (Int × Bool) :=
  if test_results.length = 0 then none
  else
    let failed_tests : Nat := test_results.countP (fun r => !r.success)
    let iteration_failure_rate : ℚ :=
      (failed_tests : ℚ) / (test_results.length : ℚ)
    let has_acceptable_failure_rate : Bool :=
      decide (iteration_failure_rate ≤ acceptable_failure_rate)
    let averaged_metrics :=
      if has_acceptable_failure_rate then compute_metrics test_results
      else [(NCCL_AVG_BANDWIDTH_KEY, NO_BANDWIDTH_VALUE)]
    match averaged_metrics.lookup NCCL_AVG_BANDWIDTH_KEY with
    | none => none
    | some avg_bandwidth =>
      let has_sufficient_bandwidth : Bool :=
        decide (bandwidth_threshold ≤ avg_bandwidth)
      some (avg_bandwidth,
        has_sufficient_bandwidth && has_acceptable_failure_rate)

end ClusterHealthScanner

namespace ClusterHealthScanner

/-! ## Lemmas about the verdict merge -/

/-- Membership after the insert-if-absent fold: the guard is redundant,
so an element is in the result iff it was in the accumulator or in the
list. -/
theorem mem_foldl_insert (l : List String) (init : Finset String)
    (x : String) :
    x ∈ l.foldl (fun s node => if node ∉ s then insert node s else s) init ↔
      x ∈ init ∨ x ∈ l := by
  induction l generalizing init with
  | nil => simp
  | cons a t ih =>
    simp only [List.foldl_cons, ih, List.mem_cons]
    by_cases ha : a ∈ init
    · simp [ha]
      constructor
      · rintro (h | h)
        · exact Or.inl h
        · exact Or.inr (Or.inr h)
      · rintro (h | h | h)
        · exact Or.inl h
        · exact Or.inl (h ▸ ha)
        · exact Or.inr h
    · simp [ha, Finset.mem_insert]
      tauto

/-- Membership after the erase fold of the verdict merge: an element
survives iff it was in the accumulator and, when it occurs in the list,
it belongs to the protected set `F`. -/
theorem mem_foldl_erase (l : List String) (F init : Finset String)
    (x : String) :
    x ∈ l.foldl
        (fun s node => if node ∉ F ∧ node ∈ s then s.erase node else s)
        init ↔
      x ∈ init ∧ (x ∈ l → x ∈ F) := by
  induction l generalizing init with
  | nil => simp
  | cons a t ih =>
    simp only [List.foldl_cons, ih, List.mem_cons]
    have hstep :
        x ∈ (if a ∉ F ∧ a ∈ init then init.erase a else init) ↔
          x ∈ init ∧ (x = a → a ∈ F) := by
      by_cases haF : a ∈ F
      · simp [haF]
      · by_cases hai : a ∈ init
        · rw [if_pos ⟨haF, hai⟩, Finset.mem_erase]
          constructor
          · rintro ⟨hne, hy⟩
            exact ⟨hy, fun he => (hne he).elim⟩
          · rintro ⟨hy, himp⟩
            exact ⟨fun he => (haF (himp he)).elim, hy⟩
        · rw [if_neg (fun hc => hai hc.2)]
          constructor
          · intro hy
            exact ⟨hy, fun he => (hai (he ▸ hy)).elim⟩
          · exact fun hy => hy.1
    rw [hstep]
    constructor
    · rintro ⟨⟨h1, h2⟩, h3⟩
      refine ⟨h1, fun hx => ?_⟩
      rcases hx with he | ht
      · exact he.symm ▸ h2 he
      · exact h3 ht
    · rintro ⟨h1, h2⟩
      exact ⟨⟨h1, fun he => he ▸ h2 (Or.inl he)⟩, fun ht => h2 (Or.inr ht)⟩

/-- Membership after the guarded insert fold of the verdict merge: an
element is added iff it occurs in the list and avoids the fixed guard set
`P`. -/
theorem mem_foldl_insert_guard (l : List String) (P init : Finset String)
    (x : String) :
    x ∈ l.foldl (fun s node => if node ∉ P then insert node s else s) init ↔
      x ∈ init ∨ (x ∈ l ∧ x ∉ P) := by
  induction l generalizing init with
  | nil => simp
  | cons a t ih =>
    simp only [List.foldl_cons, ih, List.mem_cons]
    have hstep :
        x ∈ (if a ∉ P then insert a init else init) ↔
          x ∈ init ∨ (x = a ∧ a ∉ P) := by
      by_cases h : a ∈ P
      · rw [if_neg (fun hc => hc h)]
        constructor
        · exact fun hy => Or.inl hy
        · rintro (hy | ⟨_, haP⟩)
          · exact hy
          · exact (haP h).elim
      · rw [if_pos h, Finset.mem_insert]
        constructor
        · rintro (he | hy)
          · exact Or.inr ⟨he, h⟩
          · exact Or.inl hy
        · rintro (hy | ⟨he, _⟩)
          · exact Or.inr hy
          · exact Or.inl he
    rw [hstep]
    constructor
    · rintro ((hy | ⟨he, haP⟩) | ⟨ht, hP⟩)
      · exact Or.inl hy
      · exact Or.inr ⟨Or.inl he, he.symm ▸ haP⟩
      · exact Or.inr ⟨Or.inr ht, hP⟩
    · rintro (hy | ⟨he | ht, hP⟩)
      · exact Or.inl (Or.inl hy)
      · exact Or.inl (Or.inr ⟨he, he ▸ hP⟩)
      · exact Or.inr ⟨ht, hP⟩

/-- Which ids end up in the `passed` component of the verdict merge. -/
theorem mem_passed_determine (fp fb sp sb : List String) (x : String) :
    x ∈ (determine_failed_components fp fb sp sb).1 ↔ x ∈ fp ∨ x ∈ sp := by
  simp only [determine_failed_components, mem_foldl_insert,
    List.mem_toFinset]

/-- Which ids end up in the `failed` component of the verdict merge. -/
theorem mem_failed_determine (fp fb sp sb : List String) (x : String) :
    x ∈ (determine_failed_components fp fb sp sb).2 ↔
      (x ∈ sb ∧ x ∈ fb) ∨ (x ∈ fb ∧ ¬(x ∈ fp ∨ x ∈ sp)) := by
  show x ∈ fb.foldl
      (fun s node =>
        if node ∉ sp.foldl (fun s node => if node ∉ s then insert node s else s)
            fp.toFinset then
          insert node s
        else s)
      (sb.foldl
        (fun s node =>
          if node ∉ fb.toFinset ∧ node ∈ s then s.erase node else s)
        sb.toFinset) ↔ _
  rw [mem_foldl_insert_guard, mem_foldl_erase]
  simp only [mem_foldl_insert, List.mem_toFinset]
  tauto

/-- C1 counterexample: with the unconstrained input lists
`first_pass_passed = ["a"]`, `first_pass_failed = ["a"]`,
`second_pass_passed = []`, `second_pass_failed = ["a"]`, the id `"a"`
belongs to `first_pass_passed` and nevertheless ends up in the `failed`
component returned by `determine_failed_components`, so the claim's
conjunct "no id of first_pass_passed is in failed" is false without a
disjointness assumption on the two first-pass lists. -/
theorem determine_failed_components_counterexample :
    "a" ∈ (["a"] : List String) ∧
      "a" ∈ (determine_failed_components ["a"] ["a"] [] ["a"]).2 := by
  refine ⟨by simp, ?_⟩
  rw [mem_failed_determine]
  simp

/-- C1 (amended): monotone verdict merge, under the assumption — satisfied
by the only caller, which partitions the clusters of the capacity topology
— that `first_pass_passed` and `first_pass_failed` are disjoint.  Then
every id of `first_pass_passed` is in `passed` and not in `failed`, every
id of `second_pass_passed` is in `passed`, and every id of
`first_pass_failed` that occurs in neither second-pass list is in
`failed`. -/
theorem determine_failed_components_monotone (fp fb sp sb : List String)
    (hdisj : ∀ x ∈ fp, x ∉ fb) :
    (∀ x ∈ fp, x ∈ (determine_failed_components fp fb sp sb).1 ∧
        x ∉ (determine_failed_components fp fb sp sb).2) ∧
    (∀ x ∈ sp, x ∈ (determine_failed_components fp fb sp sb).1) ∧
    (∀ x ∈ fb, x ∉ sp → x ∉ sb →
      x ∈ (determine_failed_components fp fb sp sb).2) := by
  refine ⟨fun x hx => ⟨?_, ?_⟩, fun x hx => ?_, fun x hx hsp hsb => ?_⟩
  · exact (mem_passed_determine fp fb sp sb x).2 (Or.inl hx)
  · rw [mem_failed_determine]
    rintro (⟨_, hfb⟩ | ⟨hfb, _⟩) <;> exact hdisj x hx hfb
  · exact (mem_passed_determine fp fb sp sb x).2 (Or.inr hx)
  · rw [mem_failed_determine]
    refine Or.inr ⟨hx, ?_⟩
    rintro (hfp | hsp2)
    · exact hdisj x hfp hx
    · exact hsp hsp2

/-- C1 witness: the amended monotonicity theorem applied at a concrete
input (`fp = ["a"]`, `fb = ["b"]`, `sp = []`, `sb = []`). -/
theorem determine_failed_components_monotone_witness :
    "a" ∈ (determine_failed_components ["a"] ["b"] [] []).1 ∧
      "a" ∉ (determine_failed_components ["a"] ["b"] [] []).2 ∧
      "b" ∈ (determine_failed_components ["a"] ["b"] [] []).2 := by
  have h := determine_failed_components_monotone ["a"] ["b"] [] []
    (by simp)
  exact ⟨(h.1 "a" (by simp)).1, (h.1 "a" (by simp)).2,
    h.2.2 "b" (by simp) (by simp) (by simp)⟩

/-! ## Lemmas about verdict classification -/

/-- Every bucket of the empty result dictionary is empty. -/
theorem bucket_empty (w : Verdict) : bucket emptyNodeResults w = [] := by
  cases w <;> rfl

/-- Appending a node to the bucket `v` adds it to exactly that bucket. -/
theorem mem_bucket_addResult (r : NodeResults) (v : Verdict) (n x : String)
    (w : Verdict) :
    x ∈ bucket (addResult r v n) w ↔
      x ∈ bucket r w ∨ (x = n ∧ w = v) := by
  cases v <;> cases w <;> simp [addResult, bucket]

/-- Characterization of the classification fold: a name is in bucket `w`
iff it was there in the accumulator, or some tested cluster node carries
that name and classifies to `w`. -/
theorem mem_bucket_foldl_classify (clusterNodes : List KNode)
    (nodes : List String) (acc : NodeResults) (x : String) (w : Verdict) :
    x ∈ bucket
        (clusterNodes.foldl
          (fun node_results node =>
            if node.name ∉ nodes then node_results
            else
              addResult node_results
                (classifyPreResult (node.labels.lookup NCCL_PRE_RESULT_KEY))
                node.name)
          acc) w ↔
      x ∈ bucket acc w ∨
        ∃ node ∈ clusterNodes, node.name = x ∧ node.name ∈ nodes ∧
          classifyPreResult (node.labels.lookup NCCL_PRE_RESULT_KEY) = w := by
  induction clusterNodes generalizing acc with
  | nil => simp
  | cons a t ih =>
    simp only [List.foldl_cons, ih, List.mem_cons]
    by_cases ha : a.name ∈ nodes
    · rw [if_neg (fun hc => hc ha), mem_bucket_addResult]
      constructor
      · rintro ((hacc | ⟨he, hw⟩) | ⟨node, hmem, hname, htest, hcls⟩)
        · exact Or.inl hacc
        · exact Or.inr ⟨a, Or.inl rfl, he.symm, ha, hw.symm⟩
        · exact Or.inr ⟨node, Or.inr hmem, hname, htest, hcls⟩
      · rintro (hacc | ⟨node, hcase | hmem, hname, htest, hcls⟩)
        · exact Or.inl (Or.inl hacc)
        · subst hcase
          exact Or.inl (Or.inr ⟨hname.symm, hcls.symm⟩)
        · exact Or.inr ⟨node, hmem, hname, htest, hcls⟩
    · rw [if_pos ha]
      constructor
      · rintro (hacc | ⟨node, hmem, hname, htest, hcls⟩)
        · exact Or.inl hacc
        · exact Or.inr ⟨node, Or.inr hmem, hname, htest, hcls⟩
      · rintro (hacc | ⟨node, hcase | hmem, hname, htest, hcls⟩)
        · exact Or.inl hacc
        · exact (ha (hcase ▸ htest)).elim
        · exact Or.inr ⟨node, hmem, hname, htest, hcls⟩

/-- C2: verdict classification.  For every tested-node list and every
cluster node state (with distinct node names, as `v1.list_node()`
guarantees), each tested node that appears in the cluster list is a
member of bucket `w` of `get_nccl_test_results` exactly when `w` is the
verdict obtained by pattern-matching its pre-result label (`"pass"` ↦
pass, `"crash"` ↦ crash, absent ↦ timeout, anything else ↦ fail) — so it
falls in exactly one of the four buckets — and every name in any bucket
comes from the tested input list. -/
theorem get_nccl_test_results_classification (clusterNodes : List KNode)
    (nodes : List String)
    (hnodup : (clusterNodes.map KNode.name).Nodup) :
    (∀ node ∈ clusterNodes, node.name ∈ nodes →
      ∀ w : Verdict,
        (node.name ∈ bucket (get_nccl_test_results clusterNodes nodes) w ↔
          w = classifyPreResult (node.labels.lookup NCCL_PRE_RESULT_KEY))) ∧
    (∀ w : Verdict,
      ∀ x ∈ bucket (get_nccl_test_results clusterNodes nodes) w,
        x ∈ nodes) := by
  constructor
  · intro node hmem htest w
    unfold get_nccl_test_results
    rw [mem_bucket_foldl_classify, bucket_empty]
    constructor
    · rintro (hfalse | ⟨node2, hmem2, hname2, _, hcls2⟩)
      · exact absurd hfalse (List.not_mem_nil _)
      · have : node2 = node :=
          List.inj_on_of_nodup_map hnodup hmem2 hmem hname2
        subst this
        exact hcls2.symm
    · intro hw
      exact Or.inr ⟨node, hmem, rfl, htest, hw.symm⟩
  · intro w x hx
    unfold get_nccl_test_results at hx
    rw [mem_bucket_foldl_classify, bucket_empty] at hx
    rcases hx with hfalse | ⟨node, _, hname, htest, _⟩
    · exact absurd hfalse (List.not_mem_nil _)
    · exact hname ▸ htest

/-- C2 witness: the classification theorem applied to a concrete state of
five cluster nodes (labelled pass / other / crash / unlabelled / pass)
and four tested nodes. -/
theorem get_nccl_test_results_classification_witness :
    "n1" ∈ bucket
        (get_nccl_test_results
          [⟨"n1", [(NCCL_PRE_RESULT_KEY, "pass")], none⟩,
            ⟨"n2", [(NCCL_PRE_RESULT_KEY, "weird")], none⟩,
            ⟨"n3", [(NCCL_PRE_RESULT_KEY, "crash")], none⟩,
            ⟨"n4", [], none⟩,
            ⟨"n5", [(NCCL_PRE_RESULT_KEY, "pass")], none⟩]
          ["n1", "n2", "n3", "n4"])
        Verdict.pass ∧
      ¬("n4" ∈ bucket
          (get_nccl_test_results
            [⟨"n1", [(NCCL_PRE_RESULT_KEY, "pass")], none⟩,
              ⟨"n2", [(NCCL_PRE_RESULT_KEY, "weird")], none⟩,
              ⟨"n3", [(NCCL_PRE_RESULT_KEY, "crash")], none⟩,
              ⟨"n4", [], none⟩,
              ⟨"n5", [(NCCL_PRE_RESULT_KEY, "pass")], none⟩]
            ["n1", "n2", "n3", "n4"])
          Verdict.fail) := by
  have h := get_nccl_test_results_classification
    [⟨"n1", [(NCCL_PRE_RESULT_KEY, "pass")], none⟩,
      ⟨"n2", [(NCCL_PRE_RESULT_KEY, "weird")], none⟩,
      ⟨"n3", [(NCCL_PRE_RESULT_KEY, "crash")], none⟩,
      ⟨"n4", [], none⟩,
      ⟨"n5", [(NCCL_PRE_RESULT_KEY, "pass")], none⟩]
    ["n1", "n2", "n3", "n4"] (by decide)
  constructor
  · exact (h.1 ⟨"n1", [(NCCL_PRE_RESULT_KEY, "pass")], none⟩ (by decide)
      (by decide) Verdict.pass).2 (by decide)
  · intro hmem
    have := (h.1 ⟨"n4", [], none⟩ (by decide) (by decide) Verdict.fail).1 hmem
    exact absurd this (by decide)

/-! ## Lemmas about second-pass gating -/

/-- A bucket to which no tested cluster node classifies is empty. -/
theorem bucket_eq_nil_of_classify (clusterNodes : List KNode)
    (nodes : List String) (w : Verdict)
    (h : ∀ node ∈ clusterNodes, node.name ∈ nodes →
      classifyPreResult (node.labels.lookup NCCL_PRE_RESULT_KEY) ≠ w) :
    bucket (get_nccl_test_results clusterNodes nodes) w = [] := by
  rw [List.eq_nil_iff_forall_not_mem]
  intro x hx
  unfold get_nccl_test_results at hx
  rw [mem_bucket_foldl_classify, bucket_empty] at hx
  rcases hx with h0 | ⟨node, hmem, _, htest, hcls⟩
  · exact List.not_mem_nil _ h0
  · exact h node hmem htest hcls

/-- C4: second-pass gating.  For every first-pass verdict state, a second
pass launches iff second-pass is enabled, the suspect list is non-empty
and the passed list is non-empty; in particular if every tested node
(present in the cluster) classifies to pass, or none does, no second pass
launches. -/
theorem second_pass_gating (clusterNodes : List KNode) (nodes : List String)
    (second_pass_enabled : Bool) :
    (second_pass_launched second_pass_enabled
          (get_nccl_test_results clusterNodes nodes) = true ↔
        second_pass_enabled = true ∧
          first_pass_suspects (get_nccl_test_results clusterNodes nodes) ≠
            [] ∧
          passed_nodes (get_nccl_test_results clusterNodes nodes) ≠ []) ∧
    ((∀ node ∈ clusterNodes, node.name ∈ nodes →
        classifyPreResult (node.labels.lookup NCCL_PRE_RESULT_KEY) =
          Verdict.pass) →
      second_pass_launched second_pass_enabled
          (get_nccl_test_results clusterNodes nodes) = false) ∧
    ((∀ node ∈ clusterNodes, node.name ∈ nodes →
        classifyPreResult (node.labels.lookup NCCL_PRE_RESULT_KEY) ≠
          Verdict.pass) →
      second_pass_launched second_pass_enabled
          (get_nccl_test_results clusterNodes nodes) = false) := by
  refine ⟨?_, ?_, ?_⟩
  · simp [second_pass_launched, List.isEmpty_iff, and_assoc]
  · intro hall
    have hfail :
        (get_nccl_test_results clusterNodes nodes).fail = [] :=
      bucket_eq_nil_of_classify clusterNodes nodes Verdict.fail
        (fun node hm ht => by simp [hall node hm ht])
    have hcrash :
        (get_nccl_test_results clusterNodes nodes).crash = [] :=
      bucket_eq_nil_of_classify clusterNodes nodes Verdict.crash
        (fun node hm ht => by simp [hall node hm ht])
    have htimeout :
        (get_nccl_test_results clusterNodes nodes).timeout = [] :=
      bucket_eq_nil_of_classify clusterNodes nodes Verdict.timeout
        (fun node hm ht => by simp [hall node hm ht])
    simp [second_pass_launched, first_pass_suspects, hfail, hcrash,
      htimeout]
  · intro hnone
    have hpass :
        (get_nccl_test_results clusterNodes nodes).pass = [] :=
      bucket_eq_nil_of_classify clusterNodes nodes Verdict.pass hnone
    simp [second_pass_launched, passed_nodes, hpass]

/-- C4 witness: the gating theorem applied at a concrete two-node state
(one pass, one fail) with second-pass enabled: the gate fires; and at the
same state with every node passing (tested list restricted to the passing
node): the gate does not fire. -/
theorem second_pass_gating_witness :
    second_pass_launched true
        (get_nccl_test_results
          [⟨"n1", [(NCCL_PRE_RESULT_KEY, "pass")], none⟩,
            ⟨"n2", [(NCCL_PRE_RESULT_KEY, "fail")], none⟩]
          ["n1", "n2"]) = true ∧
      second_pass_launched true
        (get_nccl_test_results
          [⟨"n1", [(NCCL_PRE_RESULT_KEY, "pass")], none⟩,
            ⟨"n2", [(NCCL_PRE_RESULT_KEY, "fail")], none⟩]
          ["n1"]) = false := by
  constructor
  · exact (second_pass_gating
        [⟨"n1", [(NCCL_PRE_RESULT_KEY, "pass")], none⟩,
          ⟨"n2", [(NCCL_PRE_RESULT_KEY, "fail")], none⟩]
        ["n1", "n2"] true).1.2 ⟨rfl, by decide, by decide⟩
  · exact (second_pass_gating
        [⟨"n1", [(NCCL_PRE_RESULT_KEY, "pass")], none⟩,
          ⟨"n2", [(NCCL_PRE_RESULT_KEY, "fail")], none⟩]
        ["n1"] true).2.1 (by decide)

/-! ## Lemmas about the topology model -/

/-- Evaluation of `get_nodes_data` once the survivor list is known to be
non-empty: the first survivor's labels select between the v1 mapping and
the v2 mapping (which also serves the no-topology fallback). -/
theorem get_nodes_data_eq_of_cons (fn fv : String) (kube_nodes : List KNode)
    (first : KNode) (rest : List KNode)
    (hg : kube_nodes.filter (keep_node fn fv) = first :: rest) :
    get_nodes_data fn fv kube_nodes =
      if (first.labels.lookup "topology.gke.io/cluster").isSome then
        get_node_data_v1 (first :: rest)
      else get_node_data_v2 (first :: rest) := by
  simp only [get_nodes_data]
  rw [hg]
  by_cases h1 : (first.labels.lookup "topology.gke.io/cluster").isSome
  · simp [h1]
  · by_cases h2 :
        (first.labels.lookup "cloud.google.com/gce-topology-host").isSome
    · simp [h1, h2]
    · simp [h1, h2]

/-- C3 counterexample: the node `nB` has GPU resources and no filter label
is set, so it survives the GPU/filter checks; the first survivor `nA`
carries the v1 schema label, and `nB` — which lacks it — produces no
record at all in `get_nodes_data` (instead of appearing with cluster id
"unknown" as the claim states). -/
theorem get_nodes_data_counterexample :
    keep_node "" "true" ⟨"nB", [], some 1⟩ = true ∧
      (⟨"nB", [], some 1⟩ : KNode) ∈
        ([⟨"nA", [("topology.gke.io/cluster", "c1")], some 1⟩,
            ⟨"nB", [], some 1⟩] : List KNode).filter (keep_node "" "true") ∧
      ∀ d ∈ get_nodes_data "" "true"
          [⟨"nA", [("topology.gke.io/cluster", "c1")], some 1⟩,
            ⟨"nB", [], some 1⟩],
        d.node_id ≠ "nB" := by
  refine ⟨by decide, by decide, ?_⟩
  decide

/-- C3 (amended): in the v2 and no-schema cases every surviving record
appears in the model with missing topology labels mapped to "unknown";
in the v1 case (first survivor carries `topology.gke.io/cluster`) exactly
the surviving records that themselves carry that label appear — with
missing rack/host labels mapped to "unknown" — and surviving nodes
lacking it are dropped. -/
theorem get_nodes_data_schema (fn fv : String) (kube_nodes : List KNode)
    (first : KNode) (rest : List KNode)
    (hg : kube_nodes.filter (keep_node fn fv) = first :: rest) :
    (∀ n ∈ kube_nodes.filter (keep_node fn fv),
      ((first.labels.lookup "topology.gke.io/cluster").isSome = true →
        (n.labels.lookup "topology.gke.io/cluster").isSome = true →
        node_data_v1 n ∈ get_nodes_data fn fv kube_nodes) ∧
      ((first.labels.lookup "topology.gke.io/cluster").isSome = false →
        node_data_v2 n ∈ get_nodes_data fn fv kube_nodes)) ∧
    ((first.labels.lookup "topology.gke.io/cluster").isSome = true →
      ∀ d ∈ get_nodes_data fn fv kube_nodes,
        ∃ n ∈ kube_nodes.filter (keep_node fn fv),
          (n.labels.lookup "topology.gke.io/cluster").isSome = true ∧
            d = node_data_v1 n) ∧
    (∀ n : KNode,
      (n.labels.lookup "cloud.google.com/gce-topology-block" = none →
        (node_data_v2 n).cluster = "unknown") ∧
      (n.labels.lookup "cloud.google.com/gce-topology-subblock" = none →
        (node_data_v2 n).rack = "unknown") ∧
      (n.labels.lookup "topology.gke.io/rack" = none →
        (node_data_v1 n).rack = "unknown") ∧
      (n.labels.lookup "topology.gke.io/host" = none →
        (node_data_v1 n).host = "unknown")) := by
  rw [get_nodes_data_eq_of_cons fn fv kube_nodes first rest hg]
  refine ⟨?_, ?_, ?_⟩
  · intro n hn
    rw [hg] at hn
    constructor
    · intro hfirst hlabel
      rw [if_pos hfirst]
      unfold get_node_data_v1
      exact List.mem_map_of_mem node_data_v1
        (List.mem_filter.2 ⟨hn, hlabel⟩)
    · intro hfirst
      rw [if_neg (by simp [hfirst])]
      exact List.mem_map_of_mem node_data_v2 hn
  · intro hfirst d hd
    rw [if_pos hfirst] at hd
    unfold get_node_data_v1 at hd
    rcases List.mem_map.1 hd with ⟨n, hn, hdn⟩
    rcases List.mem_filter.1 hn with ⟨hnmem, hnlabel⟩
    exact ⟨n, hg ▸ hnmem, hnlabel, hdn.symm⟩
  · intro n
    refine ⟨?_, ?_, ?_, ?_⟩ <;> intro hnone <;>
      simp [node_data_v1, node_data_v2, hnone]

/-- C3 witness: the amended schema theorem applied to a concrete node
list — in the v1 case a labelled survivor appears and is the only record,
and on a v2-labelled list an unlabelled survivor appears with cluster
"unknown". -/
theorem get_nodes_data_schema_witness :
    node_data_v1 ⟨"nA", [("topology.gke.io/cluster", "c1")], some 1⟩ ∈
        get_nodes_data "" "true"
          [⟨"nA", [("topology.gke.io/cluster", "c1")], some 1⟩,
            ⟨"nB", [], some 1⟩] ∧
      node_data_v2 ⟨"nD", [], some 1⟩ ∈
        get_nodes_data "" "true"
          [⟨"nC", [("cloud.google.com/gce-topology-host", "h1")], some 1⟩,
            ⟨"nD", [], some 1⟩] := by
  constructor
  · exact ((get_nodes_data_schema "" "true"
        [⟨"nA", [("topology.gke.io/cluster", "c1")], some 1⟩,
          ⟨"nB", [], some 1⟩]
        ⟨"nA", [("topology.gke.io/cluster", "c1")], some 1⟩
        [⟨"nB", [], some 1⟩] (by decide)).1
      ⟨"nA", [("topology.gke.io/cluster", "c1")], some 1⟩
      (by decide)).1 (by decide) (by decide)
  · exact ((get_nodes_data_schema "" "true"
        [⟨"nC", [("cloud.google.com/gce-topology-host", "h1")], some 1⟩,
          ⟨"nD", [], some 1⟩]
        ⟨"nC", [("cloud.google.com/gce-topology-host", "h1")], some 1⟩
        [⟨"nD", [], some 1⟩] (by decide)).1
      ⟨"nD", [], some 1⟩ (by decide)).2 (by decide)

/-! ## Lemmas about the pair planner -/

/-- The popping loop only emits elements of the list, its leftover is an
element of the list, and on a duplicate-free list no emitted pair has
equal components. -/
theorem pairUp_spec (l : List Nat) :
    (∀ p ∈ (pairUp l).1, p.1 ∈ l ∧ p.2 ∈ l) ∧
      (∀ x, (pairUp l).2 = some x → x ∈ l) ∧
      (l.Nodup → ∀ p ∈ (pairUp l).1, p.1 ≠ p.2) := by
  induction l using pairUp.induct with
  | case1 =>
    simp [pairUp]
  | case2 x =>
    simp [pairUp]
  | case3 x y rest ih =>
    obtain ⟨ih1, ih2, ih3⟩ := ih
    refine ⟨?_, ?_, ?_⟩
    · intro p hp
      rcases List.mem_cons.1 (by simpa [pairUp] using hp) with he | ht
      · subst he
        exact ⟨List.mem_cons_self _ _, List.mem_cons_of_mem _
          (List.mem_cons_self _ _)⟩
      · obtain ⟨h1, h2⟩ := ih1 p ht
        exact ⟨List.mem_cons_of_mem _ (List.mem_cons_of_mem _ h1),
          List.mem_cons_of_mem _ (List.mem_cons_of_mem _ h2)⟩
    · intro z hz
      simp only [pairUp] at hz
      exact List.mem_cons_of_mem _ (List.mem_cons_of_mem _ (ih2 z hz))
    · intro hnd p hp
      rcases List.mem_cons.1 (by simpa [pairUp] using hp) with he | ht
      · subst he
        intro hxy
        have hxy2 : x = y := hxy
        exact (List.nodup_cons.1 hnd).1
          (by rw [hxy2]; exact List.mem_cons_self _ _)
      · exact ih3 (List.nodup_cons.1 (List.nodup_cons.1 hnd).2).2 p ht

/-- C6: the pair planner never pairs an index with itself.  `shuffled` is
the shuffled value of `list(range(length))` (a permutation), and
`random_partner` is the retry loop's result: a value `< length` different
from the leftover index.  Every emitted pair has two distinct in-range
components, and for `length < 2` the result is empty. -/
theorem generate_index_pairs_no_self (length : Nat) (shuffled : List Nat)
    (random_partner : Nat)
    (hperm : shuffled.Perm (List.range length))
    (hpartner : random_partner < length)
    (hne :
      ((pairUp shuffled.reverse).2.all
        (fun x => random_partner != x)) = true) :
    (∀ p ∈ generate_index_pairs length shuffled random_partner,
      p.1 ≠ p.2 ∧ p.1 < length ∧ p.2 < length) ∧
    (length < 2 → generate_index_pairs length shuffled random_partner = []) := by
  have hmem : ∀ x ∈ shuffled.reverse, x < length := by
    intro x hx
    have := hperm.mem_iff.1 (List.mem_reverse.1 hx)
    exact List.mem_range.1 this
  have hnd : shuffled.reverse.Nodup :=
    List.nodup_reverse.2 (hperm.nodup_iff.2 (List.nodup_range length))
  obtain ⟨hcomp, hleft, hdist⟩ := pairUp_spec shuffled.reverse
  constructor
  · intro p hp
    by_cases hlen : length < 2
    · simp [generate_index_pairs, hlen] at hp
    · rcases hlo : (pairUp shuffled.reverse).2 with _ | last
      · rw [show generate_index_pairs length shuffled random_partner =
            (pairUp shuffled.reverse).1 by
          simp [generate_index_pairs, hlen, hlo]] at hp
        obtain ⟨h1, h2⟩ := hcomp p hp
        exact ⟨hdist hnd p hp, hmem _ h1, hmem _ h2⟩
      · rw [show generate_index_pairs length shuffled random_partner =
            (pairUp shuffled.reverse).1 ++ [(last, random_partner)] by
          simp [generate_index_pairs, hlen, hlo]] at hp
        rcases List.mem_append.1 hp with hp1 | hp2
        · obtain ⟨h1, h2⟩ := hcomp p hp1
          exact ⟨hdist hnd p hp1, hmem _ h1, hmem _ h2⟩
        · have hpeq : p = (last, random_partner) := by simpa using hp2
          subst hpeq
          rw [hlo] at hne
          simp only [Option.all, bne_iff_ne] at hne
          exact ⟨fun heq => hne heq.symm, hmem _ (hleft last hlo), hpartner⟩
  · intro hlen
    simp [generate_index_pairs, hlen]

/-- C6 witness: the planner theorem applied at `length = 3`,
`shuffled = [1, 0, 2]`, `random_partner = 0`: the odd pair `(1, 0)` is
emitted and has distinct in-range components. -/
theorem generate_index_pairs_no_self_witness :
    (1, 0) ∈ generate_index_pairs 3 [1, 0, 2] 0 ∧
      ((1, 0) : Nat × Nat).1 ≠ ((1, 0) : Nat × Nat).2 ∧
      ((1, 0) : Nat × Nat).1 < 3 ∧ ((1, 0) : Nat × Nat).2 < 3 := by
  have h := generate_index_pairs_no_self 3 [1, 0, 2] 0 (by decide)
    (by decide) (by decide)
  exact ⟨by decide, h.1 (1, 0) (by decide)⟩

/-! ## Lemmas about the second-pass pairing -/

/-- A cyclic prefix shorter than the list is an ordinary prefix. -/
theorem cycle_take_eq_take (l : List String) (n : Nat)
    (h : n ≤ l.length) : cycle_take l n = l.take n := by
  apply List.ext_getElem
  · simp [cycle_take, Nat.min_eq_left h]
  · intro i h1 h2
    simp only [cycle_take, List.getElem_map, List.getElem_range,
      List.getElem_take]
    have hi : i < l.length := by
      simp only [cycle_take, List.length_map, List.length_range] at h1
      omega
    rw [Nat.mod_eq_of_lt hi, List.getD_eq_getElem?_getD,
      List.getElem?_eq_getElem hi]
    rfl

/-- Peeling one full period off a cyclic prefix. -/
theorem cycle_take_add (l : List String) (m : Nat) :
    cycle_take l (l.length + m) = l ++ cycle_take l m := by
  unfold cycle_take
  rw [List.range_add, List.map_append, List.map_map]
  congr 1
  · apply List.ext_getElem
    · simp
    · intro i h1 h2
      simp only [List.getElem_map, List.getElem_range]
      rw [Nat.mod_eq_of_lt h2, List.getD_eq_getElem?_getD,
        List.getElem?_eq_getElem h2]
      rfl
  · apply List.map_congr_left
    intro i _
    simp only [Function.comp]
    rw [Nat.add_mod_left]

/-- On a duplicate-free non-empty list, no element appears in the cyclic
prefix of length `n` more than `⌈n / len⌉` times. -/
theorem count_cycle_take_le (l : List String) (hl : l ≠ [])
    (hnd : l.Nodup) (x : String) (n : Nat) :
    (cycle_take l n).count x ≤ (n + l.length - 1) / l.length := by
  have hp : 0 < l.length := List.length_pos.2 hl
  induction n using Nat.strong_induction_on with
  | _ n IH =>
    by_cases hn : l.length ≤ n
    · have heq : n = l.length + (n - l.length) := by omega
      rw [heq, cycle_take_add l, List.count_append]
      have h1 : l.count x ≤ 1 := List.nodup_iff_count_le_one.1 hnd x
      have h2 := IH (n - l.length) (by omega)
      have h3 : (n - l.length + l.length - 1) / l.length + 1 =
          (n - l.length + l.length - 1 + l.length) / l.length :=
        (Nat.add_div_right _ hp).symm
      calc l.count x + (cycle_take l (n - l.length)).count x ≤
            (n - l.length + l.length - 1) / l.length + 1 := by omega
        _ = (n - l.length + l.length - 1 + l.length) / l.length := h3
        _ = (l.length + (n - l.length) + l.length - 1) / l.length := by
            congr 1
            omega
    · rw [cycle_take_eq_take l n (by omega)]
      by_cases hn0 : n = 0
      · subst hn0
        simp
      · have h1 : (l.take n).count x ≤ 1 :=
          le_trans ((List.take_sublist n l).count_le x)
            (List.nodup_iff_count_le_one.1 hnd x)
        have h2 : 1 ≤ (n + l.length - 1) / l.length :=
          (Nat.le_div_iff_mul_le hp).2 (by omega)
        omega

/-- Every member of a non-empty list appears in any cyclic prefix of at
least one full period. -/
theorem count_cycle_take_ge (l : List String) (x : String)
    (hx : x ∈ l) (n : Nat) (hn : l.length ≤ n) :
    1 ≤ (cycle_take l n).count x := by
  have heq : n = l.length + (n - l.length) := by omega
  rw [heq, cycle_take_add l, List.count_append]
  have h1 : 0 < l.count x := List.count_pos_iff.2 hx
  omega

/-- C7: second-pass partner reuse bound.  When there are fewer passers
than suspects (and at least one passer: the duplicate-free shuffled
passed list), zipping the suspect list against the cyclic repetition of
the passed list pairs every suspect exactly once (the first components
are exactly the suspect list), and every passer is used as a partner at
least once and at most `⌈|suspect| / |passed|⌉` times. -/
theorem second_pass_pairs_reuse (suspect_nodes_list passed_nodes_list :
    List String)
    (hnodup : passed_nodes_list.Nodup)
    (hp : 0 < passed_nodes_list.length)
    (hlt : passed_nodes_list.length < suspect_nodes_list.length) :
    ((second_pass_node_pairs suspect_nodes_list passed_nodes_list).map
        Prod.fst = suspect_nodes_list) ∧
    (∀ x ∈ passed_nodes_list,
      1 ≤ ((second_pass_node_pairs suspect_nodes_list
            passed_nodes_list).map Prod.snd).count x ∧
      ((second_pass_node_pairs suspect_nodes_list
            passed_nodes_list).map Prod.snd).count x ≤
        (suspect_nodes_list.length + passed_nodes_list.length - 1) /
          passed_nodes_list.length) := by
  have hl : passed_nodes_list ≠ [] := by
    intro h
    rw [h] at hp
    simp at hp
  have hlen :
      (cycle_take passed_nodes_list suspect_nodes_list.length).length =
        suspect_nodes_list.length := by
    simp [cycle_take]
  have hsnd :
      (second_pass_node_pairs suspect_nodes_list passed_nodes_list).map
          Prod.snd =
        cycle_take passed_nodes_list suspect_nodes_list.length :=
    List.map_snd_zip _ _ (by rw [hlen])
  refine ⟨List.map_fst_zip _ _ (by rw [hlen]), fun x hx => ?_⟩
  rw [hsnd]
  exact ⟨count_cycle_take_ge passed_nodes_list x hx _ (le_of_lt hlt),
    count_cycle_take_le passed_nodes_list hl hnodup x _⟩

/-- C7 witness: the reuse theorem applied to three suspects and two
passers: every suspect is paired once and the passer `"p1"` is used at
least once and at most `⌈3/2⌉ = 2` times. -/
theorem second_pass_pairs_reuse_witness :
    ((second_pass_node_pairs ["s1", "s2", "s3"] ["p1", "p2"]).map
        Prod.fst = ["s1", "s2", "s3"]) ∧
      1 ≤ ((second_pass_node_pairs ["s1", "s2", "s3"] ["p1", "p2"]).map
          Prod.snd).count "p1" ∧
      ((second_pass_node_pairs ["s1", "s2", "s3"] ["p1", "p2"]).map
          Prod.snd).count "p1" ≤
        ((["s1", "s2", "s3"] : List String).length +
            (["p1", "p2"] : List String).length - 1) /
          (["p1", "p2"] : List String).length := by
  have h := second_pass_pairs_reuse ["s1", "s2", "s3"] ["p1", "p2"]
    (by decide) (by decide) (by decide)
  exact ⟨h.1, h.2 "p1" (by decide)⟩

/-! ## Lemmas about the job watcher -/

/-- The conditional removal of one poll's job loop is the unconditional
erase of the names of terminal jobs: the membership test only guards a
no-op (erasing an absent element). -/
theorem processPoll_step_eq (a : JobStatus) (remaining : Finset String) :
    (if a.name ∈ remaining then
        if jobSucceeded a then remaining.erase a.name
        else if jobFailed a then remaining.erase a.name
        else remaining
      else remaining) =
      (if (jobSucceeded a || jobFailed a) = true then
        remaining.erase a.name
      else remaining) := by
  by_cases hmem : a.name ∈ remaining
  · by_cases hs : jobSucceeded a <;> by_cases hf : jobFailed a <;>
      simp [hmem, hs, hf]
  · by_cases hs : jobSucceeded a <;> by_cases hf : jobFailed a <;>
      simp [hmem, hs, hf, Finset.erase_eq_of_not_mem hmem]

/-- A job name survives the job loop of one poll tick iff it was in the
remaining set and no record of that name in the polled list is
terminal. -/
theorem mem_foldl_removeTerminal (items : List JobStatus)
    (remaining : Finset String) (x : String) :
    x ∈ items.foldl
        (fun rem job =>
          if job.name ∈ rem then
            if jobSucceeded job then rem.erase job.name
            else if jobFailed job then rem.erase job.name
            else rem
          else rem)
        remaining ↔
      x ∈ remaining ∧
        ∀ job ∈ items, job.name = x →
          jobSucceeded job = false ∧ jobFailed job = false := by
  induction items generalizing remaining with
  | nil => simp
  | cons a t ih =>
    rw [List.foldl_cons, ih]
    simp only [List.mem_cons, processPoll_step_eq]
    by_cases hsf : (jobSucceeded a || jobFailed a) = true
    · rw [if_pos hsf]
      constructor
      · rintro ⟨hx, ht⟩
        rw [Finset.mem_erase] at hx
        refine ⟨hx.2, fun job hj hname => ?_⟩
        rcases hj with he | hj
        · exact (hx.1 (he ▸ hname).symm).elim
        · exact ht job hj hname
      · rintro ⟨hy, hall⟩
        refine ⟨Finset.mem_erase.2 ⟨fun hxe => ?_, hy⟩,
          fun job hj hname => hall job (Or.inr hj) hname⟩
        obtain ⟨h1, h2⟩ := hall a (Or.inl rfl) hxe.symm
        rw [h1, h2] at hsf
        exact Bool.false_ne_true hsf
    · rw [if_neg hsf]
      have hb : jobSucceeded a = false ∧ jobFailed a = false := by
        constructor <;> [skip; skip] <;>
          cases hs : jobSucceeded a <;> cases hf : jobFailed a <;>
            simp [hs, hf] at hsf ⊢
      constructor
      · rintro ⟨hy, ht⟩
        refine ⟨hy, fun job hj hname => ?_⟩
        rcases hj with he | hj
        · exact he ▸ hb
        · exact ht job hj hname
      · rintro ⟨hy, hall⟩
        exact ⟨hy, fun job hj hname => hall job (Or.inr hj) hname⟩

/-- Membership after folding a sequence of poll outcomes. -/
theorem mem_foldl_processPoll (polls : List PollOutcome)
    (init : Finset String) (x : String) :
    x ∈ polls.foldl processPoll init ↔
      x ∈ init ∧ ∀ p ∈ polls, observedTerminal x p = false := by
  induction polls generalizing init with
  | nil => simp
  | cons a t ih =>
    simp only [List.foldl_cons, ih, List.mem_cons]
    have hstep : x ∈ processPoll init a ↔
        x ∈ init ∧ observedTerminal x a = false := by
      cases a with
      | error e => simp [processPoll, observedTerminal]
      | jobs items =>
        show x ∈ items.foldl _ init ↔ _
        rw [mem_foldl_removeTerminal]
        simp only [observedTerminal, List.any_eq_false, Bool.and_eq_true,
          beq_iff_eq, not_and, Bool.or_eq_true, not_or,
          Bool.not_eq_true]
    rw [hstep]
    constructor
    · rintro ⟨⟨hy, ha⟩, ht⟩
      refine ⟨hy, fun p hp => ?_⟩
      rcases hp with he | hp
      · exact he ▸ ha
      · exact ht p hp
    · rintro ⟨hy, hall⟩
      exact ⟨⟨hy, hall a (Or.inl rfl)⟩, fun p hp => hall p (Or.inr hp)⟩

/-- C8: job watcher.  The set returned by `wait_till_jobs_complete` is a
subset of the monitored job names containing exactly those never observed
terminal (`succeeded ≥ 1` or `failed ≥ 1`) in any poll before the
deadline; and a transient control-plane error tick leaves the remaining
set unchanged (the exception is swallowed inside the loop). -/
theorem wait_till_jobs_complete_spec (jobs_to_monitor : List String)
    (polls : List PollOutcome) :
    (∀ x, x ∈ wait_till_jobs_complete jobs_to_monitor polls ↔
      x ∈ jobs_to_monitor ∧ ∀ p ∈ polls, observedTerminal x p = false) ∧
    (wait_till_jobs_complete jobs_to_monitor polls ⊆
      jobs_to_monitor.toFinset) ∧
    (∀ (remaining : Finset String) (e : ApiErrorKind),
      processPoll remaining (PollOutcome.error e) = remaining) := by
  refine ⟨fun x => ?_, fun x hx => ?_, fun remaining e => rfl⟩
  · unfold wait_till_jobs_complete
    rw [mem_foldl_processPoll]
    simp [List.mem_toFinset]
  · unfold wait_till_jobs_complete at hx
    rw [mem_foldl_processPoll] at hx
    exact hx.1

/-- C8 witness: the watcher theorem applied to two monitored jobs, an
error tick and a poll where `j1` succeeded: `j2` is returned (never
observed terminal) and `j1` is not. -/
theorem wait_till_jobs_complete_spec_witness :
    "j2" ∈ wait_till_jobs_complete ["j1", "j2"]
        [PollOutcome.error ApiErrorKind.connectTimeoutError,
          PollOutcome.jobs [⟨"j1", some 1, none⟩]] ∧
      "j1" ∉ wait_till_jobs_complete ["j1", "j2"]
        [PollOutcome.error ApiErrorKind.connectTimeoutError,
          PollOutcome.jobs [⟨"j1", some 1, none⟩]] := by
  have h := wait_till_jobs_complete_spec ["j1", "j2"]
    [PollOutcome.error ApiErrorKind.connectTimeoutError,
      PollOutcome.jobs [⟨"j1", some 1, none⟩]]
  constructor
  · exact (h.1 "j2").2 ⟨by decide, by decide⟩
  · intro hmem
    have h2 := ((h.1 "j1").1 hmem).2
      (PollOutcome.jobs [⟨"j1", some 1, none⟩]) (by decide)
    exact absurd h2 (by decide)

/-! ## Lemmas about the performance runner -/

/-- The split fold with a general accumulator appends the filtered
testable levels and the per-level result records. -/
theorem splitTestable_go (m : List (String × List String)) :
    ∀ acc : List (String × List String) × List (String × HealthResultList),
      m.foldl
        (fun acc entry =>
          if entry.2.length ≤ 1 then
            (acc.1,
              acc.2 ++
                [(entry.1,
                  { id := entry.1, num_nodes := entry.2.length,
                    status := Status.skip })])
          else
            (acc.1 ++ [entry],
              acc.2 ++
                [(entry.1,
                  { id := entry.1, num_nodes := entry.2.length,
                    status := Status.unspecified })]))
        acc =
      (acc.1 ++ m.filter (fun entry => !decide (entry.2.length ≤ 1)),
        acc.2 ++ m.map (fun entry =>
          (entry.1,
            if entry.2.length ≤ 1 then
              (⟨entry.1, entry.2.length, Status.skip⟩ : HealthResultList)
            else
              ⟨entry.1, entry.2.length, Status.unspecified⟩))) := by
  induction m with
  | nil =>
    intro acc
    simp
  | cons a t ih =>
    intro acc
    rw [List.foldl_cons]
    by_cases h : a.2.length ≤ 1
    · rw [if_pos h, ih, List.filter_cons, List.map_cons]
      simp [h, List.append_assoc]
    · rw [if_neg h, ih, List.filter_cons, List.map_cons]
      simp [h, List.append_assoc]

/-- The testable dictionary built by `run_performance_healthcheck` is the
filter of the levels with more than one node. -/
theorem splitTestable_fst (m : List (String × List String)) :
    (splitTestable m).1 =
      m.filter (fun entry => !decide (entry.2.length ≤ 1)) := by
  have h := splitTestable_go m ([], [])
  rw [show splitTestable m =
      (m.filter (fun entry => !decide (entry.2.length ≤ 1)),
        m.map (fun entry =>
          (entry.1,
            if entry.2.length ≤ 1 then
              (⟨entry.1, entry.2.length, Status.skip⟩ : HealthResultList)
            else
              ⟨entry.1, entry.2.length, Status.unspecified⟩))) from by
    simpa using h]

/-- The results dictionary built by `run_performance_healthcheck` maps
each level to a record whose status is `SKIP` exactly on the one-node
levels. -/
theorem splitTestable_snd (m : List (String × List String)) :
    (splitTestable m).2 =
      m.map (fun entry =>
        (entry.1,
          if entry.2.length ≤ 1 then
            (⟨entry.1, entry.2.length, Status.skip⟩ : HealthResultList)
          else
            ⟨entry.1, entry.2.length, Status.unspecified⟩)) := by
  have h := splitTestable_go m ([], [])
  rw [show splitTestable m =
      (m.filter (fun entry => !decide (entry.2.length ≤ 1)),
        m.map (fun entry =>
          (entry.1,
            if entry.2.length ≤ 1 then
              (⟨entry.1, entry.2.length, Status.skip⟩ : HealthResultList)
            else
              ⟨entry.1, entry.2.length, Status.unspecified⟩))) from by
    simpa using h]

/-- Counting a pair with fixed first component in a list of pairs built
from a key list. -/
theorem count_map_pair {α : Type} [DecidableEq α] (t : α) (k : String)
    (keys : List String) :
    (keys.map (Prod.mk t)).count (t, k) = keys.count k := by
  induction keys with
  | nil => rfl
  | cons a rest ih =>
    simp only [List.map_cons, List.count_cons, ih]
    by_cases hak : a = k
    · simp [hak]
    · simp [hak]

/-- Counting one `(sweep element, topology)` pair among the launched
invocations: the launch loops emit it once per occurrence of the sweep
element times once per occurrence of the topology key. -/
theorem count_launched_jobs {α : Type} [DecidableEq α] (tests : List α)
    (testable : List (String × List String)) (test : α) (k : String) :
    (launched_jobs tests testable).count (test, k) =
      tests.count test * (testable.map Prod.fst).count k := by
  induction tests with
  | nil => simp [launched_jobs]
  | cons t rest ih =>
    rw [show launched_jobs (t :: rest) testable =
        testable.map (fun entry => (t, entry.1)) ++
          launched_jobs rest testable from by simp [launched_jobs]]
    rw [List.count_append, ih, List.count_cons]
    by_cases ht : t = test
    · subst ht
      have hmap : testable.map (fun entry => (t, entry.1)) =
          (testable.map Prod.fst).map (Prod.mk t) := by
        rw [List.map_map]
        apply List.map_congr_left
        intro e _
        rfl
      rw [hmap, count_map_pair, Nat.add_mul]
      simp [Nat.add_comm]
    · have h0 : (testable.map (fun entry => (t, entry.1))).count
          (test, k) = 0 := by
        rw [List.count_eq_zero]
        intro hmem
        rcases List.mem_map.1 hmem with ⟨e, _, heq⟩
        exact ht (Prod.ext_iff.1 heq).1
      have hb : (t == test) = false := by
        simp [beq_iff_eq, ht]
      rw [h0, hb]
      simp

/-- C9: performance runner skip rule.  For every level → nodes map (with
distinct level keys, as a Python dictionary guarantees): a level with at
most one node is recorded as a `SKIP` result — its only result record has
status `SKIP`, never `FAIL` — and no invocation is launched for it; a
level with more than one node is launched exactly once per element of the
test sweep (sweep elements taken distinct). -/
theorem run_performance_healthcheck_skip {α : Type} [DecidableEq α]
    (health_check_tests : List α)
    (topology_to_nodes : List (String × List String))
    (hkeys : (topology_to_nodes.map Prod.fst).Nodup) :
    (∀ entry ∈ topology_to_nodes, entry.2.length ≤ 1 →
      (entry.1, (⟨entry.1, entry.2.length, Status.skip⟩ :
          HealthResultList)) ∈
          (splitTestable topology_to_nodes).2 ∧
        (∀ r : HealthResultList,
          (entry.1, r) ∈ (splitTestable topology_to_nodes).2 →
            r.status = Status.skip) ∧
        (∀ test : α, (test, entry.1) ∉
          launched_jobs health_check_tests
            (splitTestable topology_to_nodes).1)) ∧
    (health_check_tests.Nodup →
      ∀ entry ∈ topology_to_nodes, 1 < entry.2.length →
        ∀ test ∈ health_check_tests,
          (launched_jobs health_check_tests
              (splitTestable topology_to_nodes).1).count (test, entry.1) =
            1) := by
  constructor
  · intro entry hmem hle
    refine ⟨?_, ?_, ?_⟩
    · rw [splitTestable_snd]
      have h := List.mem_map_of_mem (fun entry =>
        (entry.1,
          if entry.2.length ≤ 1 then
            (⟨entry.1, entry.2.length, Status.skip⟩ : HealthResultList)
          else
            ⟨entry.1, entry.2.length, Status.unspecified⟩)) hmem
      simpa [hle] using h
    · intro r hr
      rw [splitTestable_snd] at hr
      rcases List.mem_map.1 hr with ⟨e2, hm2, heq⟩
      simp only [Prod.mk.injEq] at heq
      obtain ⟨hfst, hsnd⟩ := heq
      have he2 : e2 = entry :=
        List.inj_on_of_nodup_map hkeys hm2 hmem hfst
      subst he2
      rw [← hsnd]
      simp [hle]
    · intro test hmemL
      rw [splitTestable_fst] at hmemL
      rcases List.mem_flatMap.1 hmemL with ⟨t, _, hin⟩
      rcases List.mem_map.1 hin with ⟨e2, hm2, heq⟩
      obtain ⟨hf2, htest2⟩ := List.mem_filter.1 hm2
      have hfst : e2.1 = entry.1 := (Prod.ext_iff.1 heq).2
      have he2 : e2 = entry :=
        List.inj_on_of_nodup_map hkeys hf2 hmem hfst
      subst he2
      simp at htest2
      omega
  · intro htests entry hmem hgt test htest
    rw [splitTestable_fst, count_launched_jobs]
    have h1 : health_check_tests.count test = 1 :=
      List.count_eq_one_of_mem htests htest
    have hnod : ((topology_to_nodes.filter
        (fun entry => !decide (entry.2.length ≤ 1))).map Prod.fst).Nodup :=
      hkeys.sublist (List.Sublist.map _ (List.filter_sublist _))
    have hmemf : entry ∈ topology_to_nodes.filter
        (fun entry => !decide (entry.2.length ≤ 1)) :=
      List.mem_filter.2 ⟨hmem, by simp; omega⟩
    have h2 : ((topology_to_nodes.filter
        (fun entry => !decide (entry.2.length ≤ 1))).map
          Prod.fst).count entry.1 = 1 :=
      List.count_eq_one_of_mem hnod (List.mem_map_of_mem Prod.fst hmemf)
    rw [h1, h2]

/-- C9 witness: the skip theorem applied to two blocks of 2 and 1 nodes
and a two-element sweep: the one-node block is recorded as `SKIP` and
never launched, and the two-node block is launched exactly once per sweep
element. -/
theorem run_performance_healthcheck_skip_witness :
    ("b2", (⟨"b2", 1, Status.skip⟩ : HealthResultList)) ∈
        (splitTestable [("b1", ["n1", "n2"]), ("b2", ["n3"])]).2 ∧
      ((0 : Nat), "b2") ∉ launched_jobs [0, 1]
        (splitTestable [("b1", ["n1", "n2"]), ("b2", ["n3"])]).1 ∧
      (launched_jobs [(0 : Nat), 1]
          (splitTestable [("b1", ["n1", "n2"]), ("b2", ["n3"])]).1).count
        (0, "b1") = 1 := by
  have h := run_performance_healthcheck_skip [(0 : Nat), 1]
    [("b1", ["n1", "n2"]), ("b2", ["n3"])] (by decide)
  have hskip := h.1 ("b2", ["n3"]) (by decide) (by decide)
  exact ⟨hskip.1, hskip.2.2 0,
    h.2 (by decide) ("b1", ["n1", "n2"]) (by decide) (by decide) 0
      (by decide)⟩

/-! ## Lemmas about NCCL result aggregation -/

/-- Association-list lookup succeeds exactly on the stored keys. -/
theorem lookup_isSome_iff_mem_keys {γ : Type} (l : List (String × γ))
    (k : String) :
    (l.lookup k).isSome ↔ k ∈ l.map Prod.fst := by
  rw [List.lookup_isSome_iff]
  constructor
  · rintro ⟨p, hp, hbeq⟩
    rw [beq_iff_eq] at hbeq
    exact hbeq ▸ List.mem_map_of_mem Prod.fst hp
  · intro hk
    rcases List.mem_map.1 hk with ⟨p, hp, hpk⟩
    exact ⟨p, hp, beq_iff_eq.2 hpk.symm⟩

/-- The keys after `update_metrics`: unchanged when the label was already
stored, extended by the label otherwise. -/
theorem update_metrics_keys (metrics : List (String × Nat × Int))
    (label : String) (value : Int) :
    (update_metrics metrics label value).map Prod.fst =
      metrics.map Prod.fst ++
        (if (metrics.lookup label).isSome then [] else [label]) := by
  unfold update_metrics
  cases hl : metrics.lookup label with
  | some cv =>
    obtain ⟨c, t⟩ := cv
    rw [List.map_map]
    rw [show (if (some (c, t) : Option (Nat × Int)).isSome then []
        else [label]) = ([] : List String) from rfl, List.append_nil]
    apply List.map_congr_left
    intro e _
    by_cases hc : e.1 = label
    · simp [Function.comp, hc]
    · simp [Function.comp, hc]
  | none =>
    simp

/-- Lookup of any key succeeds after `update_metrics` iff it succeeded
before or the key is the updated label. -/
theorem lookup_update_isSome (metrics : List (String × Nat × Int))
    (label : String) (value : Int) (l : String) :
    ((update_metrics metrics label value).lookup l).isSome ↔
      (metrics.lookup l).isSome ∨ l = label := by
  rw [lookup_isSome_iff_mem_keys, lookup_isSome_iff_mem_keys,
    update_metrics_keys]
  by_cases h : (metrics.lookup label).isSome
  · rw [if_pos h, List.append_nil]
    constructor
    · exact Or.inl
    · rintro (hm | rfl)
      · exact hm
      · exact (lookup_isSome_iff_mem_keys metrics l).1 h
  · rw [if_neg h]
    simp [List.mem_append]

/-- `update_metrics` keeps every stored count positive. -/
theorem update_metrics_pos (metrics : List (String × Nat × Int))
    (label : String) (value : Int)
    (h : ∀ e ∈ metrics, 0 < e.2.1) :
    ∀ e ∈ update_metrics metrics label value, 0 < e.2.1 := by
  unfold update_metrics
  cases hl : metrics.lookup label with
  | some cv =>
    obtain ⟨c, t⟩ := cv
    intro e he
    rcases List.mem_map.1 he with ⟨e0, he0, heq⟩
    by_cases hc : e0.1 = label
    · rw [← heq]
      simp [hc]
    · rw [← heq]
      simp only [hc, if_false]
      exact h e0 he0
  | none =>
    intro e he
    rcases List.mem_append.1 he with h1 | h2
    · exact h e h1
    · have : e = (label, 1, value) := by simpa using h2
      rw [this]
      exact Nat.zero_lt_one

/-- Preservation of positive counts along any fold. -/
theorem foldl_pos_preserve {τ : Type}
    {step : List (String × Nat × Int) → τ → List (String × Nat × Int)}
    (hstep : ∀ acc r, (∀ e ∈ acc, 0 < e.2.1) →
      ∀ e ∈ step acc r, 0 < e.2.1) :
    ∀ (l : List τ) (acc : List (String × Nat × Int)),
      (∀ e ∈ acc, 0 < e.2.1) → ∀ e ∈ l.foldl step acc, 0 < e.2.1 := by
  intro l
  induction l with
  | nil => intro acc h; exact h
  | cons a t ih =>
    intro acc h
    rw [List.foldl_cons]
    exact ih _ (hstep acc a h)

/-- Preservation of a successful key lookup along any fold. -/
theorem foldl_isSome_preserve {τ : Type}
    {step : List (String × Nat × Int) → τ → List (String × Nat × Int)}
    (k : String)
    (hstep : ∀ acc r, ((acc.lookup k).isSome) →
      (((step acc r).lookup k).isSome)) :
    ∀ (l : List τ) (acc : List (String × Nat × Int)),
      ((acc.lookup k).isSome) → (((l.foldl step acc).lookup k).isSome) := by
  intro l
  induction l with
  | nil => intro acc h; exact h
  | cons a t ih =>
    intro acc h
    rw [List.foldl_cons]
    exact ih _ (hstep acc a h)

/-- The per-result-line inner step of `compute_metrics` keeps counts
positive. -/
theorem inner_step_pos (m : List (String × Nat × Int)) (res : NcclResult)
    (hm : ∀ e ∈ m, 0 < e.2.1) :
    ∀ e ∈
      (let metrics :=
        match MESSAGE_SIZE_TO_BANDWIDTH_LABEL.lookup res.message_size with
        | some bandwidth_label =>
          update_metrics m bandwidth_label res.in_place_bw
        | none => m
      match MESSAGE_SIZE_TO_LATENCY_LABEL.lookup res.message_size with
      | some latency_label =>
        update_metrics metrics latency_label res.in_place_time
      | none => metrics), 0 < e.2.1 := by
  dsimp only
  split <;> split
  · exact update_metrics_pos _ _ _ (update_metrics_pos _ _ _ hm)
  · exact update_metrics_pos _ _ _ hm
  · exact update_metrics_pos _ _ _ hm
  · exact hm

/-- The per-result-line inner step of `compute_metrics` preserves a
successful lookup of any key. -/
theorem inner_step_isSome (m : List (String × Nat × Int))
    (res : NcclResult) (k : String) (hm : (m.lookup k).isSome) :
    ((let metrics :=
        match MESSAGE_SIZE_TO_BANDWIDTH_LABEL.lookup res.message_size with
        | some bandwidth_label =>
          update_metrics m bandwidth_label res.in_place_bw
        | none => m
      match MESSAGE_SIZE_TO_LATENCY_LABEL.lookup res.message_size with
      | some latency_label =>
        update_metrics metrics latency_label res.in_place_time
      | none => metrics).lookup k).isSome := by
  dsimp only
  split <;> split
  · exact (lookup_update_isSome _ _ _ _).2
      (Or.inl ((lookup_update_isSome _ _ _ _).2 (Or.inl hm)))
  · exact (lookup_update_isSome _ _ _ _).2 (Or.inl hm)
  · exact (lookup_update_isSome _ _ _ _).2 (Or.inl hm)
  · exact hm

/-- Every count stored by `compute_metrics_raw` is positive (each entry
is created with count 1 and only ever incremented), so every per-label
division in `compute_metrics` has a positive divisor. -/
theorem compute_metrics_raw_pos (test_results : List NcclResults) :
    ∀ e ∈ compute_metrics_raw test_results, 0 < e.2.1 := by
  unfold compute_metrics_raw
  refine foldl_pos_preserve ?_ test_results [] (by simp)
  intro acc r h
  dsimp only
  split
  · exact h
  · exact foldl_pos_preserve (fun m res hm => inner_step_pos m res hm)
      r.results _ (update_metrics_pos _ _ _ h)

/-- Once some iteration in the remaining list is successful (or the
average-bandwidth key is already stored), the fold of
`compute_metrics_raw` stores the average-bandwidth key. -/
theorem compute_metrics_raw_avg_isSome (test_results : List NcclResults)
    (h : ∃ r ∈ test_results, r.success = true) :
    ((compute_metrics_raw test_results).lookup
      NCCL_AVG_BANDWIDTH_KEY).isSome := by
  unfold compute_metrics_raw
  suffices hgen : ∀ (l : List NcclResults)
      (acc : List (String × Nat × Int)),
      ((acc.lookup NCCL_AVG_BANDWIDTH_KEY).isSome ∨
        ∃ r ∈ l, r.success = true) →
      (((l.foldl
        (fun metrics nccl_results =>
          if !nccl_results.success then metrics
          else
            let metrics :=
              update_metrics metrics NCCL_AVG_BANDWIDTH_KEY
                nccl_results.avg_bandwidth
            nccl_results.results.foldl
              (fun metrics result =>
                let metrics :=
                  match MESSAGE_SIZE_TO_BANDWIDTH_LABEL.lookup
                      result.message_size with
                  | some bandwidth_label =>
                    update_metrics metrics bandwidth_label
                      result.in_place_bw
                  | none => metrics
                match MESSAGE_SIZE_TO_LATENCY_LABEL.lookup
                    result.message_size with
                | some latency_label =>
                  update_metrics metrics latency_label
                    result.in_place_time
                | none => metrics)
              metrics)
        acc).lookup NCCL_AVG_BANDWIDTH_KEY).isSome) by
    exact hgen test_results [] (Or.inr h)
  intro l
  induction l with
  | nil =>
    intro acc hacc
    rcases hacc with h1 | ⟨r, hr, _⟩
    · exact h1
    · simp at hr
  | cons r rest ih =>
    intro acc hacc
    rw [List.foldl_cons]
    by_cases hs : r.success = true
    · apply ih
      left
      dsimp only
      rw [if_neg (by simp [hs])]
      refine foldl_isSome_preserve NCCL_AVG_BANDWIDTH_KEY
        (fun m res hm => inner_step_isSome m res _ hm) r.results _ ?_
      exact (lookup_update_isSome _ _ _ _).2 (Or.inr rfl)
    · apply ih
      dsimp only
      rw [if_pos (by revert hs; cases r.success <;> simp)]
      rcases hacc with h1 | ⟨r2, hr2, hs2⟩
      · exact Or.inl h1
      · rcases List.mem_cons.1 hr2 with he | hm
        · exact absurd (he ▸ hs2) hs
        · exact Or.inr ⟨r2, hm, hs2⟩

/-- The averaged dictionary has the same keys as the raw dictionary. -/
theorem compute_metrics_keys (test_results : List NcclResults) :
    (compute_metrics test_results).map Prod.fst =
      (compute_metrics_raw test_results).map Prod.fst := by
  unfold compute_metrics
  rw [List.map_map]
  apply List.map_congr_left
  intro e _
  rfl

/-- A fold whose step ignores unsuccessful iterations computes the same
value on the list of successful iterations only. -/
theorem foldl_filter_success {σ : Type}
    (step : σ → NcclResults → σ)
    (hstep : ∀ acc r, r.success = false → step acc r = acc)
    (l : List NcclResults) :
    ∀ acc, l.foldl step acc =
      (l.filter (fun r => r.success)).foldl step acc := by
  induction l with
  | nil => intro acc; rfl
  | cons r rest ih =>
    intro acc
    rw [List.foldl_cons, List.filter_cons]
    by_cases hs : r.success = true
    · rw [if_pos hs, List.foldl_cons, ih]
    · have hs2 : r.success = false := by
        revert hs
        cases r.success <;> simp
      rw [hstep acc r hs2, if_neg (by simp [hs2]), ih]

/-- `compute_metrics_raw` only reads the successful iterations. -/
theorem compute_metrics_raw_filter (test_results : List NcclResults) :
    compute_metrics_raw test_results =
      compute_metrics_raw (test_results.filter (fun r => r.success)) := by
  unfold compute_metrics_raw
  exact foldl_filter_success _ (fun acc r hf => by rw [hf]; rfl)
    test_results []

/-- `compute_metrics` averages across the successful iterations only. -/
theorem compute_metrics_filter (test_results : List NcclResults) :
    compute_metrics test_results =
      compute_metrics (test_results.filter (fun r => r.success)) := by
  unfold compute_metrics
  rw [compute_metrics_raw_filter]

/-- An acceptable failure rate implies at least one successful
iteration. -/
theorem exists_success_of_acceptable (test_results : List NcclResults)
    (hne : test_results ≠ [])
    (h : ((test_results.countP (fun r => !r.success) : ℚ) /
        (test_results.length : ℚ)) ≤ 1 / 2) :
    ∃ r ∈ test_results, r.success = true := by
  by_contra hc
  push_neg at hc
  have hall : ∀ r ∈ test_results, (!r.success) = true := by
    intro r hr
    have hcr := hc r hr
    revert hcr
    cases r.success <;> simp
  have hcount : test_results.countP (fun r => !r.success) =
      test_results.length := List.countP_eq_length.2 hall
  rw [hcount] at h
  have hlen : (0 : ℚ) < (test_results.length : ℚ) := by
    have h0 : 0 < test_results.length := List.length_pos.2 hne
    exact_mod_cast h0
  rw [div_self (ne_of_gt hlen)] at h
  norm_num at h

/-- Case evaluation of the decision core of `process_test_result` on a
non-empty iteration list, by the sign of the failure rate against the
0.5 default. -/
theorem process_test_result_eval (test_results : List NcclResults)
    (bandwidth_threshold : Int) (hne : test_results ≠ []) :
    (((test_results.countP (fun r => !r.success) : ℚ) /
          (test_results.length : ℚ)) > 1 / 2 →
      process_test_result test_results bandwidth_threshold (1 / 2) =
        some (NO_BANDWIDTH_VALUE, false)) ∧
    (((test_results.countP (fun r => !r.success) : ℚ) /
          (test_results.length : ℚ)) ≤ 1 / 2 →
      ∃ avg : Int,
        (compute_metrics test_results).lookup NCCL_AVG_BANDWIDTH_KEY =
          some avg ∧
        process_test_result test_results bandwidth_threshold (1 / 2) =
          some (avg, decide (bandwidth_threshold ≤ avg)) ∧
        compute_metrics test_results =
          compute_metrics (test_results.filter (fun r => r.success))) := by
  have hlen : ¬(test_results.length = 0) := fun h0 =>
    hne (List.length_eq_zero.1 h0)
  constructor
  · intro hgt
    have hd : decide (((test_results.countP (fun r => !r.success) : ℚ) /
        (test_results.length : ℚ)) ≤ 1 / 2) = false :=
      decide_eq_false (not_le.2 hgt)
    simp only [process_test_result, hlen, if_false, hd,
      Bool.false_eq_true, List.lookup_cons_self, Bool.and_false]
  · intro hle
    have hd : decide (((test_results.countP (fun r => !r.success) : ℚ) /
        (test_results.length : ℚ)) ≤ 1 / 2) = true :=
      decide_eq_true hle
    have hsucc := exists_success_of_acceptable test_results hne hle
    have hcm : ((compute_metrics test_results).lookup
        NCCL_AVG_BANDWIDTH_KEY).isSome := by
      rw [lookup_isSome_iff_mem_keys, compute_metrics_keys,
        ← lookup_isSome_iff_mem_keys]
      exact compute_metrics_raw_avg_isSome test_results hsucc
    obtain ⟨avg, havg⟩ := Option.isSome_iff_exists.1 hcm
    refine ⟨avg, havg, ?_, compute_metrics_filter test_results⟩
    simp only [process_test_result, hlen, if_false, hd, if_true]
    rw [havg]
    simp

/-- C5: NCCL aggregation rule.  For every non-empty iteration list (at
the default acceptable failure rate 0.5) and every threshold: if the
failure rate exceeds 0.5 the reported bandwidth is the sentinel `-1` and
the node fails regardless of the threshold; otherwise the bandwidth is
the average computed by `compute_metrics` — which reads the successful
iterations only — and the node passes iff that average is at least the
threshold. -/
theorem process_test_result_spec (test_results : List NcclResults)
    (bandwidth_threshold : Int) (hne : test_results ≠ []) :
    (((test_results.countP (fun r => !r.success) : ℚ) /
          (test_results.length : ℚ)) > 1 / 2 →
      process_test_result test_results bandwidth_threshold (1 / 2) =
        some (NO_BANDWIDTH_VALUE, false)) ∧
    (((test_results.countP (fun r => !r.success) : ℚ) /
          (test_results.length : ℚ)) ≤ 1 / 2 →
      ∃ avg : Int,
        (compute_metrics test_results).lookup NCCL_AVG_BANDWIDTH_KEY =
          some avg ∧
        process_test_result test_results bandwidth_threshold (1 / 2) =
          some (avg, decide (bandwidth_threshold ≤ avg)) ∧
        compute_metrics test_results =
          compute_metrics (test_results.filter (fun r => r.success))) :=
  process_test_result_eval test_results bandwidth_threshold hne

/-- C5 witness: the aggregation theorem applied to two concrete runs —
one success at bandwidth 100 and one failure yields `some (100, true)`
at threshold 60; two failures yield the sentinel `some (-1, false)`. -/
theorem process_test_result_spec_witness :
    process_test_result [(⟨100, [], true⟩ : NcclResults), ⟨0, [], false⟩]
        60 (1 / 2) = some (100, true) ∧
      process_test_result [(⟨0, [], false⟩ : NcclResults), ⟨0, [], false⟩]
        60 (1 / 2) = some (-1, false) := by
  constructor
  · obtain ⟨avg, h1, h2, _⟩ :=
      (process_test_result_spec
        [(⟨100, [], true⟩ : NcclResults), ⟨0, [], false⟩] 60
        (by simp)).2 (by norm_num [List.countP, List.countP.go])
    have he : (compute_metrics
        [(⟨100, [], true⟩ : NcclResults), ⟨0, [], false⟩]).lookup
          NCCL_AVG_BANDWIDTH_KEY = some 100 := by rfl
    rw [he] at h1
    have havg : avg = 100 := (Option.some.inj h1).symm
    subst havg
    rw [h2]
    decide
  · exact (process_test_result_spec
      [(⟨0, [], false⟩ : NcclResults), ⟨0, [], false⟩] 60
      (by simp)).1 (by norm_num [List.countP, List.countP.go])

/-- C10: implicit precondition of result processing.  On the empty
iteration list the failure-rate division has divisor zero and the
operation is an error (`none`); on a non-empty list the division is
well-defined and the result is always `some`; when the failure rate is
acceptable at least one iteration succeeded; and every entry of the
metrics dictionary has a positive count, so every per-label division in
`compute_metrics` has a positive divisor. -/
theorem process_test_result_total (test_results : List NcclResults)
    (bandwidth_threshold : Int) :
    process_test_result [] bandwidth_threshold (1 / 2) = none ∧
    (test_results ≠ [] →
      ∃ out : Int × Bool,
        process_test_result test_results bandwidth_threshold (1 / 2) =
          some out) ∧
    (test_results ≠ [] →
      ((test_results.countP (fun r => !r.success) : ℚ) /
          (test_results.length : ℚ)) ≤ 1 / 2 →
      ∃ r ∈ test_results, r.success = true) ∧
    (∀ e ∈ compute_metrics_raw test_results, 0 < e.2.1) := by
  refine ⟨rfl, ?_, fun hne hle => exists_success_of_acceptable _ hne hle,
    compute_metrics_raw_pos test_results⟩
  intro hne
  by_cases hle : ((test_results.countP (fun r => !r.success) : ℚ) /
      (test_results.length : ℚ)) ≤ 1 / 2
  · obtain ⟨avg, _, h2, _⟩ :=
      (process_test_result_eval test_results bandwidth_threshold hne).2 hle
    exact ⟨(avg, decide (bandwidth_threshold ≤ avg)), h2⟩
  · exact ⟨(NO_BANDWIDTH_VALUE, false),
      (process_test_result_eval test_results bandwidth_threshold hne).1
        (lt_of_not_le hle)⟩

/-- C10 witness: the totality theorem applied at a concrete single
successful iteration: the empty list is an error, the non-empty run
returns a value, and its acceptable failure rate forces a successful
iteration. -/
theorem process_test_result_total_witness :
    process_test_result ([] : List NcclResults) 60 (1 / 2) = none ∧
      (process_test_result [(⟨100, [], true⟩ : NcclResults)] 60
          (1 / 2)).isSome = true ∧
      (⟨100, [], true⟩ : NcclResults).success = true := by
  have h := process_test_result_total [(⟨100, [], true⟩ : NcclResults)] 60
  refine ⟨h.1, ?_, ?_⟩
  · obtain ⟨out, hout⟩ := h.2.1 (by simp)
    rw [hout]
    rfl
  · obtain ⟨r, hr, hs⟩ := h.2.2.1 (by simp)
      (by norm_num [List.countP, List.countP.go])
    have hre : r = ⟨100, [], true⟩ := by simpa using hr
    exact hre ▸ hs

end ClusterHealthScanner

